import Mathlib

/-!
Shallow embedding of a small arithmetic-expression front end written in Rust
(lexer, recursive-descent parser, diagnostics, RPN compiler, evaluator).
Character positions are byte offsets; all inputs handled here are ASCII, so
char offsets and byte offsets coincide.
-/

set_option maxHeartbeats 1000000

deriving instance DecidableEq for Except

namespace Arith

/-- Half-open 0-based range into the input, `Location(usize, usize)` in
`lexer.rs`. `lo` is field `.0`, `hi` is field `.1`. -/
structure Location where
  lo : Nat
  hi : Nat
deriving DecidableEq, Repr

/-- `Location::merge` from `lexer.rs`. -/
def Location.merge (x y : Location) : Location :=
  ⟨min x.lo y.lo, max x.hi y.hi⟩

/-- Generic `Annotation<T> { value, location }` wrapper from `lexer.rs`. -/
structure Annotation (T : Type) where
  value : T
  location : Location
deriving DecidableEq, Repr

/-- `TokenKind` from `lexer.rs`.  `Number(u64)` is modelled with `Nat`; the
inputs considered never approach the 64-bit range, which the spec leaves
unspecified. -/
inductive TokenKind where
  | number (n : Nat)
  | plus
  | minus
  | asterisk
  | slash
  | lparen
  | rparen
deriving DecidableEq, Repr

/-- `Token = Annotation<TokenKind>`. -/
abbrev Token := Annotation TokenKind

/-- `LexErrorKind` from `lexer.rs`. -/
inductive LexErrorKind where
  | invalidChar (c : Char)
  | eof
deriving DecidableEq, Repr

/-- `LexError = Annotation<LexErrorKind>`. -/
abbrev LexError := Annotation LexErrorKind

/-- `is_number` from `lexer.rs`: ASCII decimal digit test. -/
def is_number (c : Char) : Bool :=
  decide ('0' ≤ c) && decide (c ≤ '9')

/-- `is_space` from `lexer.rs`: space, tab or newline. -/
def is_space (c : Char) : Bool :=
  c = ' ' || c = '\t' || c = '\n'

/-- `create_one_byte_token` from `lexer.rs`, as a partial map from the
character to the token kind (`none` for characters that are not one-byte
tokens; the Rust function is only called on the six operator characters). -/
def one_byte_kind (c : Char) : Option TokenKind :=
  match c with
  | '+' => some .plus
  | '-' => some .minus
  | '*' => some .asterisk
  | '/' => some .slash
  | '(' => some .lparen
  | ')' => some .rparen
  | _ => none

/-- Decimal value of a digit run, as computed by `lex_number`'s
`from_utf8(..).parse::<u64>()` (overflow past 64 bits is out of scope per the
spec). `48 = '0'.toNat`. -/
def digits_to_nat (ds : List Char) : Nat :=
  ds.foldl (fun acc c => acc * 10 + (c.toNat - 48)) 0

/-- The `lex` scan loop from `lexer.rs`, over the remaining characters with
the current byte index `i`.  `fuel` only bounds the recursion; every step
consumes at least one character, so `length + 1` fuel never runs out. -/
def lexF : Nat → List Char → Nat → Except LexError (List Token)
  | 0, _, _ => .error ⟨.eof, ⟨0, 0⟩⟩
  | _ + 1, [], _ => .ok []
  | f + 1, c :: cs, i =>
    match one_byte_kind c with
    | some k =>
      -- lex_one_byte: consume_byte always succeeds here and the token spans [i, i+1)
      (lexF f cs (i + 1)).map (fun toks => (⟨k, ⟨i, i + 1⟩⟩ : Token) :: toks)
    | none =>
      if is_number c then
        -- lex_number: maximal digit run, token spans the whole run
        let ds := (c :: cs).takeWhile is_number
        (lexF f ((c :: cs).drop ds.length) (i + ds.length)).map
          (fun toks => (⟨.number (digits_to_nat ds), ⟨i, i + ds.length⟩⟩ : Token) :: toks)
      else if is_space c then
        -- skip_spaces: maximal whitespace run, no token
        let ws := (c :: cs).takeWhile is_space
        lexF f ((c :: cs).drop ws.length) (i + ws.length)
      else
        .error ⟨.invalidChar c, ⟨i, i + 1⟩⟩

/-- `lex` from `lexer.rs`. -/
def lex (s : String) : Except LexError (List Token) :=
  lexF (s.data.length + 1) s.data 0

/-- `UnaryOperatorKind` from `parser.rs`. -/
inductive UnaryOperatorKind where
  | plus
  | minus
deriving DecidableEq, Repr

/-- `UnaryOperator = Annotation<UnaryOperatorKind>`. -/
abbrev UnaryOperator := Annotation UnaryOperatorKind

/-- `BinaryOperatorKind` from `parser.rs`. -/
inductive BinaryOperatorKind where
  | add
  | sub
  | multi
  | div
deriving DecidableEq, Repr

/-- `BinaryOperator = Annotation<BinaryOperatorKind>`. -/
abbrev BinaryOperator := Annotation BinaryOperatorKind

/-- The AST from `parser.rs`.  In the source, `Ast = Annotation<AstKind>`
with `AstKind = Num | Unary | Binary`; here the annotation is flattened so
that every constructor carries its `Location` as its last argument, matching
the factory methods `Ast::num(n, loc)`, `Ast::unary(op, operand, loc)` and
`Ast::binary(op, left, right, loc)`. -/
inductive Ast where
  | num (n : Nat) (location : Location)
  | unary (operator : UnaryOperator) (operand : Ast) (location : Location)
  | binary (operator : BinaryOperator) (left : Ast) (right : Ast) (location : Location)
deriving DecidableEq, Repr

/-- The `location` field of the annotation wrapped around each AST node. -/
def Ast.location : Ast → Location
  | .num _ l => l
  | .unary _ _ l => l
  | .binary _ _ _ l => l

/-- `ParseError` from `parser.rs`. -/
inductive ParseError where
  | unexpectedToken (t : Token)
  | notExpression (t : Token)
  | notOperator (t : Token)
  | unclosedOpenParen (t : Token)
  | redundantExpression (t : Token)
  | eof
deriving DecidableEq, Repr

/-- `ApplicationError` from `parser.rs`: umbrella over lexer and parser
errors. -/
inductive ApplicationError where
  | lexer (e : LexError)
  | parser (e : ParseError)
deriving DecidableEq, Repr

/-- The location selected by `ApplicationError::show_diagnostic` for the
caret underline, as a function of the error and `input.len()`
(`parser.rs` lines 184-205). -/
def diagnostic_location : ApplicationError → Nat → Location
  | .lexer e, _ => e.location
  | .parser e, inputLen =>
    match e with
    | .unexpectedToken t => t.location
    | .notExpression t => t.location
    | .notOperator t => t.location
    | .unclosedOpenParen t => t.location
    | .redundantExpression t => ⟨t.location.lo, inputLen⟩
    | .eof => ⟨inputLen, inputLen + 1⟩

/-- The second line printed by `print_annote`: `loc.0` blanks followed by
`loc.1 - loc.0` carets. -/
def annote_line (loc : Location) : String :=
  ⟨List.replicate loc.lo ' ' ++ List.replicate (loc.hi - loc.lo) '^'⟩

/-- `parse_expr3_op` (nested in `parse_expr3`): peeks, accepts `+` as `Add`
or `-` as `Sub` and consumes the token; any other token is `NotOperator`,
an empty stream is `Eof`. -/
def parse_expr3_op : List Token → Except ParseError (BinaryOperator × List Token)
  | [] => .error .eof
  | t :: ts =>
    match t.value with
    | .plus => .ok (⟨.add, t.location⟩, ts)
    | .minus => .ok (⟨.sub, t.location⟩, ts)
    | _ => .error (.notOperator t)

/-- `parse_expr2_op` (nested in `parse_expr2`): `*` as `Multi`, `/` as
`Div`. -/
def parse_expr2_op : List Token → Except ParseError (BinaryOperator × List Token)
  | [] => .error .eof
  | t :: ts =>
    match t.value with
    | .asterisk => .ok (⟨.multi, t.location⟩, ts)
    | .slash => .ok (⟨.div, t.location⟩, ts)
    | _ => .error (.notOperator t)

/-!
The recursive-descent parser from `parser.rs`, with the peekable iterator
modelled as the list of remaining tokens (every parser returns the unread
suffix).  A `fuel` argument makes the recursion structural; `fuel` is
decremented at every call, so any fuel exceeding the call depth gives the
code's behaviour, and every seventh call consumes at least one token, so the
`7 * length + 7` supplied by `parse` below never runs out.  The exhausted-fuel
branches return `ParseError.eof` and are unreachable from `parse`.
`parse_expr3_go` and `parse_expr2_go` are the two instantiations of the
`parse_left_binop` loop (`parser.rs` lines 282-306): a failing operator
sub-parse breaks the loop, a failing operand sub-parse propagates, and each
step builds `Ast::binary(op, left, right, left.location.merge(right.location))`.
-/

mutual

/-- `parse_expr` = `parse_expr3`. -/
def parse_expr : Nat → List Token → Except ParseError (Ast × List Token)
  | 0, _ => .error .eof
  | f + 1, ts => parse_expr3 f ts

/-- `parse_expr3`: left fold of `parse_expr2` over `+`/`-`. -/
def parse_expr3 : Nat → List Token → Except ParseError (Ast × List Token)
  | 0, _ => .error .eof
  | f + 1, ts =>
    match parse_expr2 f ts with
    | .error e => .error e
    | .ok (left, rest) => parse_expr3_go f left rest

/-- The `parse_left_binop` loop instantiated with `parse_expr2` and
`parse_expr3_op`. -/
def parse_expr3_go : Nat → Ast → List Token → Except ParseError (Ast × List Token)
  | 0, _, _ => .error .eof
  | _ + 1, left, [] => .ok (left, [])
  | f + 1, left, t :: ts =>
    match parse_expr3_op (t :: ts) with
    | .error _ => .ok (left, t :: ts)
    | .ok (op, ts1) =>
      match parse_expr2 f ts1 with
      | .error e => .error e
      | .ok (right, ts2) =>
        parse_expr3_go f (Ast.binary op left right (left.location.merge right.location)) ts2

/-- `parse_expr2`: left fold of `parse_expr1` over `*`/`/`. -/
def parse_expr2 : Nat → List Token → Except ParseError (Ast × List Token)
  | 0, _ => .error .eof
  | f + 1, ts =>
    match parse_expr1 f ts with
    | .error e => .error e
    | .ok (left, rest) => parse_expr2_go f left rest

/-- The `parse_left_binop` loop instantiated with `parse_expr1` and
`parse_expr2_op`. -/
def parse_expr2_go : Nat → Ast → List Token → Except ParseError (Ast × List Token)
  | 0, _, _ => .error .eof
  | _ + 1, left, [] => .ok (left, [])
  | f + 1, left, t :: ts =>
    match parse_expr2_op (t :: ts) with
    | .error _ => .ok (left, t :: ts)
    | .ok (op, ts1) =>
      match parse_expr1 f ts1 with
      | .error e => .error e
      | .ok (right, ts2) =>
        parse_expr2_go f (Ast.binary op left right (left.location.merge right.location)) ts2

/-- `parse_expr1`: optional single leading `+`/`-` sign before an atom;
the unary node's location is `op.location.merge(atom.location)`. -/
def parse_expr1 : Nat → List Token → Except ParseError (Ast × List Token)
  | 0, _ => .error .eof
  | f + 1, ts =>
    match ts with
    | tok :: rest =>
      match tok.value with
      | .plus =>
        match parse_atom f rest with
        | .error e => .error e
        | .ok (atom, r) =>
          .ok (Ast.unary ⟨.plus, tok.location⟩ atom (tok.location.merge atom.location), r)
      | .minus =>
        match parse_atom f rest with
        | .error e => .error e
        | .ok (atom, r) =>
          .ok (Ast.unary ⟨.minus, tok.location⟩ atom (tok.location.merge atom.location), r)
      | _ => parse_atom f ts
    | [] => parse_atom f ts

/-- `parse_atom`: a number token, or `"(" EXPR3 ")"`.  For the bracketed
case the inner expression is returned unchanged; a non-`)` next token is
`RedundantExpression`, a missing next token is `UnclosedOpenParen` carrying
the opening `(` token. -/
def parse_atom : Nat → List Token → Except ParseError (Ast × List Token)
  | 0, _ => .error .eof
  | _ + 1, [] => .error .eof
  | f + 1, tok :: rest =>
    match tok.value with
    | .number n => .ok (Ast.num n tok.location, rest)
    | .lparen =>
      match parse_expr f rest with
      | .error e => .error e
      | .ok (exp, rest2) =>
        match rest2 with
        | t :: rest3 =>
          if t.value = .rparen then .ok (exp, rest3)
          else .error (.redundantExpression t)
        | [] => .error (.unclosedOpenParen tok)
    | _ => .error (.notExpression tok)

end

/-- Fuel that always exceeds the parser's call depth on `ts` (call depth is
bounded by seven calls per consumed token plus a constant). -/
def parseFuel (ts : List Token) : Nat := 7 * ts.length + 7

/-- `parse` from `parser.rs`: one expression, then any remaining token is a
`RedundantExpression` error. -/
def parse (ts : List Token) : Except ParseError Ast :=
  match parse_expr (parseFuel ts) ts with
  | .error e => .error e
  | .ok (ret, rest) =>
    match rest with
    | t :: _ => .error (.redundantExpression t)
    | [] => .ok ret

/-- `RpnCompiler::compile_uniop` from `compiler.rs`. -/
def compile_uniop (op : UnaryOperator) : String :=
  match op.value with
  | .plus => "+"
  | .minus => "-"

/-- `RpnCompiler::compile_binop` from `compiler.rs`. -/
def compile_binop (op : BinaryOperator) : String :=
  match op.value with
  | .add => "+"
  | .sub => "-"
  | .multi => "*"
  | .div => "/"

/-- `RpnCompiler::compile_inner` from `compiler.rs`, with the output buffer
made explicit as the returned string: `Num` appends its decimal text,
`Unary` appends the operator then the operand, `Binary` appends left, a
space, right, a space, then the operator. -/
def compile_inner : Ast → String
  | .num n _ => toString n
  | .unary op operand _ => compile_uniop op ++ compile_inner operand
  | .binary op l r _ => compile_inner l ++ " " ++ compile_inner r ++ " " ++ compile_binop op

/-- `RpnCompiler::compile` from `compiler.rs`. -/
def compile (a : Ast) : String := compile_inner a

/-- `InterpreterErrorKind` from `interpreter.rs`. -/
inductive InterpreterErrorKind where
  | divisionByZero
deriving DecidableEq, Repr

/-- `InterpreterError = Annotation<InterpreterErrorKind>`. -/
abbrev InterpreterError := Annotation InterpreterErrorKind

/-- Two's-complement wraparound into the `i64` range
`[-2^63, 2^63)`, the behaviour of the release build's `i64` arithmetic and
of the `u64 -> i64` cast in `Interpreter::eval` (overflow is unspecified per
the spec, and no input considered here overflows). -/
def wrap64 (x : Int) : Int := Int.emod (x + 2 ^ 63) (2 ^ 64) - 2 ^ 63

/-- `Interpreter::eval_uniop` from `interpreter.rs`. -/
def eval_uniop (op : UnaryOperator) (operand : Int) : Int :=
  match op.value with
  | .plus => operand
  | .minus => wrap64 (-operand)

/-- `Interpreter::eval_binop` from `interpreter.rs`: the only error is
`DivisionByZero`, when the right operand is zero; `/` is Rust's `i64`
division, truncating toward zero (`Int.tdiv`). -/
def eval_binop (op : BinaryOperator) (left right : Int) :
    Except InterpreterErrorKind Int :=
  match op.value with
  | .add => .ok (wrap64 (left + right))
  | .sub => .ok (wrap64 (left - right))
  | .multi => .ok (wrap64 (left * right))
  | .div =>
    if right = 0 then .error .divisionByZero
    else .ok (wrap64 (Int.tdiv left right))

/-- `Interpreter::eval` from `interpreter.rs`: `Num` is cast to `i64`,
unary applies `eval_uniop`, binary evaluates left then right and attaches
the binary node's own location to any `eval_binop` error. -/
def eval : Ast → Except InterpreterError Int
  | .num n _ => .ok (wrap64 n)
  | .unary op operand _ =>
    match eval operand with
    | .error e => .error e
    | .ok v => .ok (eval_uniop op v)
  | .binary op l r loc =>
    match eval l with
    | .error e => .error e
    | .ok lv =>
      match eval r with
      | .error e => .error e
      | .ok rv =>
        match eval_binop op lv rv with
        | .error k => .error ⟨k, loc⟩
        | .ok v => .ok v

/-- The span bookkeeping the parser establishes: a binary node's location is
the merge of its children's locations, and a unary node's location is the
merge of the operator's and the operand's locations, recursively. -/
def span_invariant : Ast → Bool
  | .num _ _ => true
  | .unary op operand loc =>
    decide (loc = op.location.merge operand.location) && span_invariant operand
  | .binary _ l r loc =>
    decide (loc = l.location.merge r.location) && span_invariant l && span_invariant r

/-- Some `Div` binary node of the tree has a right operand that evaluates to
zero. -/
def has_div_by_zero : Ast → Bool
  | .num _ _ => false
  | .unary _ operand _ => has_div_by_zero operand
  | .binary op l r _ =>
    has_div_by_zero l || has_div_by_zero r ||
      (decide (op.value = BinaryOperatorKind.div) &&
       decide (eval r = .ok 0))

/-- `s` occurs as a subtree of the AST (the whole tree included). -/
def is_subtree (s : Ast) : Ast → Bool
  | a@(.num _ _) => decide (a = s)
  | a@(.unary _ operand _) => decide (a = s) || is_subtree s operand
  | a@(.binary _ l r _) => decide (a = s) || is_subtree s l || is_subtree s r

/-- The parse-error kinds that `parse` can actually surface: everything
except `NotOperator` and `UnexpectedToken`. -/
def err_allowed : ParseError → Bool
  | .notOperator _ => false
  | .unexpectedToken _ => false
  | _ => true


/-! Concrete token sequences and ASTs used by the scenario theorems below.
Spans follow the lexer on the quoted inputs. -/

/-- Tokens of `"1 + 2 * 3 - -10"`. -/
def tokens_ex1 : List Token :=
  [⟨.number 1, ⟨0, 1⟩⟩, ⟨.plus, ⟨2, 3⟩⟩, ⟨.number 2, ⟨4, 5⟩⟩, ⟨.asterisk, ⟨6, 7⟩⟩,
   ⟨.number 3, ⟨8, 9⟩⟩, ⟨.minus, ⟨10, 11⟩⟩, ⟨.minus, ⟨12, 13⟩⟩, ⟨.number 10, ⟨13, 15⟩⟩]

/-- AST of `"1 + 2 * 3 - -10"`: `Binary(Sub, Binary(Add, 1, Binary(Mul, 2, 3)), Unary(Minus, 10))`. -/
def ast_ex1 : Ast :=
  .binary ⟨.sub, ⟨10, 11⟩⟩
    (.binary ⟨.add, ⟨2, 3⟩⟩ (.num 1 ⟨0, 1⟩)
      (.binary ⟨.multi, ⟨6, 7⟩⟩ (.num 2 ⟨4, 5⟩) (.num 3 ⟨8, 9⟩) ⟨4, 9⟩) ⟨0, 9⟩)
    (.unary ⟨.minus, ⟨12, 13⟩⟩ (.num 10 ⟨13, 15⟩) ⟨12, 15⟩) ⟨0, 15⟩

/-- Tokens of `"1 - 2 - 3"`. -/
def tokens_sub3 : List Token :=
  [⟨.number 1, ⟨0, 1⟩⟩, ⟨.minus, ⟨2, 3⟩⟩, ⟨.number 2, ⟨4, 5⟩⟩,
   ⟨.minus, ⟨6, 7⟩⟩, ⟨.number 3, ⟨8, 9⟩⟩]

/-- Left-grouped AST of `"1 - 2 - 3"`: `Binary(Sub, Binary(Sub, 1, 2), 3)`. -/
def ast_sub3 : Ast :=
  .binary ⟨.sub, ⟨6, 7⟩⟩
    (.binary ⟨.sub, ⟨2, 3⟩⟩ (.num 1 ⟨0, 1⟩) (.num 2 ⟨4, 5⟩) ⟨0, 5⟩)
    (.num 3 ⟨8, 9⟩) ⟨0, 9⟩

/-- Tokens of `"--5"`. -/
def tokens_mm5 : List Token :=
  [⟨.minus, ⟨0, 1⟩⟩, ⟨.minus, ⟨1, 2⟩⟩, ⟨.number 5, ⟨2, 3⟩⟩]

/-- Tokens of `"1 - -10"`. -/
def tokens_1mm10 : List Token :=
  [⟨.number 1, ⟨0, 1⟩⟩, ⟨.minus, ⟨2, 3⟩⟩, ⟨.minus, ⟨4, 5⟩⟩, ⟨.number 10, ⟨5, 7⟩⟩]

/-- AST of `"1 - -10"`: `Binary(Sub, 1, Unary(Minus, 10))`. -/
def ast_1mm10 : Ast :=
  .binary ⟨.sub, ⟨2, 3⟩⟩ (.num 1 ⟨0, 1⟩)
    (.unary ⟨.minus, ⟨4, 5⟩⟩ (.num 10 ⟨5, 7⟩) ⟨4, 7⟩) ⟨0, 7⟩

/-- Tokens of `"(1)"`. -/
def tokens_paren1 : List Token :=
  [⟨.lparen, ⟨0, 1⟩⟩, ⟨.number 1, ⟨1, 2⟩⟩, ⟨.rparen, ⟨2, 3⟩⟩]

/-- Tokens of `"(1 + 2"`. -/
def tokens_open : List Token :=
  [⟨.lparen, ⟨0, 1⟩⟩, ⟨.number 1, ⟨1, 2⟩⟩, ⟨.plus, ⟨3, 4⟩⟩, ⟨.number 2, ⟨5, 6⟩⟩]

/-- Tokens of `"(1 +"`. -/
def tokens_open_bad : List Token :=
  [⟨.lparen, ⟨0, 1⟩⟩, ⟨.number 1, ⟨1, 2⟩⟩, ⟨.plus, ⟨3, 4⟩⟩]

/-- Tokens of `"1 2"`. -/
def tokens_redundant : List Token :=
  [⟨.number 1, ⟨0, 1⟩⟩, ⟨.number 2, ⟨2, 3⟩⟩]

/-- Tokens of `"1 / 0"`. -/
def tokens_div0 : List Token :=
  [⟨.number 1, ⟨0, 1⟩⟩, ⟨.slash, ⟨2, 3⟩⟩, ⟨.number 0, ⟨4, 5⟩⟩]

/-- AST of `"1 / 0"`. -/
def ast_div0 : Ast :=
  .binary ⟨.div, ⟨2, 3⟩⟩ (.num 1 ⟨0, 1⟩) (.num 0 ⟨4, 5⟩) ⟨0, 5⟩

/-- Every successful sub-parse, at every fuel, returns an AST satisfying
`span_invariant`; the two loop instances additionally preserve it from their
accumulator. -/
theorem parse_fuel_inv : ∀ f : Nat,
    (∀ ts a r, parse_atom f ts = .ok (a, r) → span_invariant a = true) ∧
    (∀ ts a r, parse_expr1 f ts = .ok (a, r) → span_invariant a = true) ∧
    (∀ left ts a r, parse_expr2_go f left ts = .ok (a, r) →
      span_invariant left = true → span_invariant a = true) ∧
    (∀ ts a r, parse_expr2 f ts = .ok (a, r) → span_invariant a = true) ∧
    (∀ left ts a r, parse_expr3_go f left ts = .ok (a, r) →
      span_invariant left = true → span_invariant a = true) ∧
    (∀ ts a r, parse_expr3 f ts = .ok (a, r) → span_invariant a = true) ∧
    (∀ ts a r, parse_expr f ts = .ok (a, r) → span_invariant a = true) := by
  intro f
  induction f with
  | zero =>
    refine ⟨?_, ?_, ?_, ?_, ?_, ?_, ?_⟩ <;> intros <;>
      simp_all [parse_atom, parse_expr1, parse_expr2_go, parse_expr2,
        parse_expr3_go, parse_expr3, parse_expr]
  | succ f ih =>
    obtain ⟨ihAtom, ihE1, ihG2, ihE2, ihG3, ihE3, ihE⟩ := ih
    have hAtom : ∀ ts a r, parse_atom (f + 1) ts = .ok (a, r) →
        span_invariant a = true := by
      intro ts a r h
      match ts with
      | [] => simp [parse_atom] at h
      | ⟨v, loc⟩ :: rest =>
        cases v with
        | number n =>
          simp [parse_atom] at h
          obtain ⟨h1, _⟩ := h
          subst h1
          simp [span_invariant]
        | lparen =>
          simp only [parse_atom] at h
          cases he : parse_expr f rest with
          | error e => rw [he] at h; simp at h
          | ok val =>
            obtain ⟨exp, rest2⟩ := val
            rw [he] at h
            cases rest2 with
            | nil => simp at h
            | cons t rest3 =>
              by_cases ht : t.value = TokenKind.rparen
              · simp [ht] at h
                obtain ⟨h1, _⟩ := h
                subst h1
                exact ihE rest exp (t :: rest3) he
              · simp [ht] at h
        | plus => simp [parse_atom] at h
        | minus => simp [parse_atom] at h
        | asterisk => simp [parse_atom] at h
        | slash => simp [parse_atom] at h
        | rparen => simp [parse_atom] at h
    have hE1 : ∀ ts a r, parse_expr1 (f + 1) ts = .ok (a, r) →
        span_invariant a = true := by
      intro ts a r h
      match ts with
      | [] => exact ihAtom [] a r (by simpa [parse_expr1] using h)
      | ⟨v, loc⟩ :: rest =>
        cases v with
        | plus =>
          simp only [parse_expr1] at h
          cases ha : parse_atom f rest with
          | error e => rw [ha] at h; simp at h
          | ok val =>
            obtain ⟨atom, r1⟩ := val
            rw [ha] at h
            simp at h
            obtain ⟨h1, _⟩ := h
            subst h1
            simp [span_invariant]
            exact ihAtom rest atom r1 ha
        | minus =>
          simp only [parse_expr1] at h
          cases ha : parse_atom f rest with
          | error e => rw [ha] at h; simp at h
          | ok val =>
            obtain ⟨atom, r1⟩ := val
            rw [ha] at h
            simp at h
            obtain ⟨h1, _⟩ := h
            subst h1
            simp [span_invariant]
            exact ihAtom rest atom r1 ha
        | number n => exact ihAtom _ a r (by simpa [parse_expr1] using h)
        | asterisk => exact ihAtom _ a r (by simpa [parse_expr1] using h)
        | slash => exact ihAtom _ a r (by simpa [parse_expr1] using h)
        | lparen => exact ihAtom _ a r (by simpa [parse_expr1] using h)
        | rparen => exact ihAtom _ a r (by simpa [parse_expr1] using h)
    have hG2 : ∀ left ts a r, parse_expr2_go (f + 1) left ts = .ok (a, r) →
        span_invariant left = true → span_invariant a = true := by
      intro left ts a r h hleft
      match ts with
      | [] =>
        simp [parse_expr2_go] at h
        obtain ⟨h1, _⟩ := h
        subst h1
        exact hleft
      | t :: ts1 =>
        simp only [parse_expr2_go] at h
        cases hop : parse_expr2_op (t :: ts1) with
        | error e =>
          rw [hop] at h
          simp at h
          obtain ⟨h1, _⟩ := h
          subst h1
          exact hleft
        | ok val =>
          obtain ⟨op, ts2⟩ := val
          simp only [hop] at h
          cases h1 : parse_expr1 f ts2 with
          | error e => simp only [h1] at h; simp at h
          | ok val2 =>
            obtain ⟨right, ts3⟩ := val2
            simp only [h1] at h
            refine ihG2 _ _ _ _ h ?_
            simp [span_invariant, hleft]
            exact ihE1 ts2 right ts3 h1
    have hE2 : ∀ ts a r, parse_expr2 (f + 1) ts = .ok (a, r) →
        span_invariant a = true := by
      intro ts a r h
      simp only [parse_expr2] at h
      cases h1 : parse_expr1 f ts with
      | error e => rw [h1] at h; simp at h
      | ok val =>
        obtain ⟨left, rest⟩ := val
        rw [h1] at h
        exact ihG2 _ _ _ _ h (ihE1 ts left rest h1)
    have hG3 : ∀ left ts a r, parse_expr3_go (f + 1) left ts = .ok (a, r) →
        span_invariant left = true → span_invariant a = true := by
      intro left ts a r h hleft
      match ts with
      | [] =>
        simp [parse_expr3_go] at h
        obtain ⟨h1, _⟩ := h
        subst h1
        exact hleft
      | t :: ts1 =>
        simp only [parse_expr3_go] at h
        cases hop : parse_expr3_op (t :: ts1) with
        | error e =>
          rw [hop] at h
          simp at h
          obtain ⟨h1, _⟩ := h
          subst h1
          exact hleft
        | ok val =>
          obtain ⟨op, ts2⟩ := val
          simp only [hop] at h
          cases h1 : parse_expr2 f ts2 with
          | error e => simp only [h1] at h; simp at h
          | ok val2 =>
            obtain ⟨right, ts3⟩ := val2
            simp only [h1] at h
            refine ihG3 _ _ _ _ h ?_
            simp [span_invariant, hleft]
            exact ihE2 ts2 right ts3 h1
    have hE3 : ∀ ts a r, parse_expr3 (f + 1) ts = .ok (a, r) →
        span_invariant a = true := by
      intro ts a r h
      simp only [parse_expr3] at h
      cases h1 : parse_expr2 f ts with
      | error e => rw [h1] at h; simp at h
      | ok val =>
        obtain ⟨left, rest⟩ := val
        rw [h1] at h
        exact ihG3 _ _ _ _ h (ihE2 ts left rest h1)
    have hE : ∀ ts a r, parse_expr (f + 1) ts = .ok (a, r) →
        span_invariant a = true := by
      intro ts a r h
      exact ihE3 ts a r (by simpa [parse_expr] using h)
    exact ⟨hAtom, hE1, hG2, hE2, hG3, hE3, hE⟩

/-- Every error surfaced by a sub-parse, at every fuel, is one of
`NotExpression`, `UnclosedOpenParen`, `RedundantExpression` or `Eof`: the
`NotOperator` errors of the operator sub-parsers are caught by the
`parse_left_binop` loops, and nothing constructs `UnexpectedToken`. -/
theorem parse_fuel_err : ∀ f : Nat,
    (∀ ts e, parse_atom f ts = .error e → err_allowed e = true) ∧
    (∀ ts e, parse_expr1 f ts = .error e → err_allowed e = true) ∧
    (∀ left ts e, parse_expr2_go f left ts = .error e → err_allowed e = true) ∧
    (∀ ts e, parse_expr2 f ts = .error e → err_allowed e = true) ∧
    (∀ left ts e, parse_expr3_go f left ts = .error e → err_allowed e = true) ∧
    (∀ ts e, parse_expr3 f ts = .error e → err_allowed e = true) ∧
    (∀ ts e, parse_expr f ts = .error e → err_allowed e = true) := by
  intro f
  induction f with
  | zero =>
    refine ⟨?_, ?_, ?_, ?_, ?_, ?_, ?_⟩ <;> intros <;>
      simp_all [parse_atom, parse_expr1, parse_expr2_go, parse_expr2,
        parse_expr3_go, parse_expr3, parse_expr, err_allowed] <;>
      subst_vars <;> rfl
  | succ f ih =>
    obtain ⟨ihAtom, ihE1, ihG2, ihE2, ihG3, ihE3, ihE⟩ := ih
    have hAtom : ∀ ts e, parse_atom (f + 1) ts = .error e →
        err_allowed e = true := by
      intro ts e h
      match ts with
      | [] =>
        simp [parse_atom] at h
        subst h
        simp [err_allowed]
      | ⟨v, loc⟩ :: rest =>
        cases v with
        | number n => simp [parse_atom] at h
        | lparen =>
          simp only [parse_atom] at h
          cases he : parse_expr f rest with
          | error e2 =>
            simp only [he] at h
            simp at h
            subst h
            exact ihE rest e2 he
          | ok val =>
            obtain ⟨exp, rest2⟩ := val
            simp only [he] at h
            cases rest2 with
            | nil =>
              simp at h
              subst h
              simp [err_allowed]
            | cons t rest3 =>
              by_cases ht : t.value = TokenKind.rparen
              · simp [ht] at h
              · simp [ht] at h
                subst h
                simp [err_allowed]
        | plus =>
          simp [parse_atom] at h
          subst h
          simp [err_allowed]
        | minus =>
          simp [parse_atom] at h
          subst h
          simp [err_allowed]
        | asterisk =>
          simp [parse_atom] at h
          subst h
          simp [err_allowed]
        | slash =>
          simp [parse_atom] at h
          subst h
          simp [err_allowed]
        | rparen =>
          simp [parse_atom] at h
          subst h
          simp [err_allowed]
    have hE1 : ∀ ts e, parse_expr1 (f + 1) ts = .error e →
        err_allowed e = true := by
      intro ts e h
      match ts with
      | [] => exact ihAtom [] e (by simpa [parse_expr1] using h)
      | ⟨v, loc⟩ :: rest =>
        cases v with
        | plus =>
          simp only [parse_expr1] at h
          cases ha : parse_atom f rest with
          | error e2 =>
            simp only [ha] at h
            simp at h
            subst h
            exact ihAtom rest e2 ha
          | ok val =>
            obtain ⟨atom, r1⟩ := val
            simp only [ha] at h
            simp at h
        | minus =>
          simp only [parse_expr1] at h
          cases ha : parse_atom f rest with
          | error e2 =>
            simp only [ha] at h
            simp at h
            subst h
            exact ihAtom rest e2 ha
          | ok val =>
            obtain ⟨atom, r1⟩ := val
            simp only [ha] at h
            simp at h
        | number n => exact ihAtom _ e (by simpa [parse_expr1] using h)
        | asterisk => exact ihAtom _ e (by simpa [parse_expr1] using h)
        | slash => exact ihAtom _ e (by simpa [parse_expr1] using h)
        | lparen => exact ihAtom _ e (by simpa [parse_expr1] using h)
        | rparen => exact ihAtom _ e (by simpa [parse_expr1] using h)
    have hG2 : ∀ left ts e, parse_expr2_go (f + 1) left ts = .error e →
        err_allowed e = true := by
      intro left ts e h
      match ts with
      | [] => simp [parse_expr2_go] at h
      | t :: ts1 =>
        simp only [parse_expr2_go] at h
        cases hop : parse_expr2_op (t :: ts1) with
        | error e2 => simp only [hop] at h; simp at h
        | ok val =>
          obtain ⟨op, ts2⟩ := val
          simp only [hop] at h
          cases h1 : parse_expr1 f ts2 with
          | error e2 =>
            simp only [h1] at h
            simp at h
            subst h
            exact ihE1 ts2 e2 h1
          | ok val2 =>
            obtain ⟨right, ts3⟩ := val2
            simp only [h1] at h
            exact ihG2 _ _ _ h
    have hE2 : ∀ ts e, parse_expr2 (f + 1) ts = .error e →
        err_allowed e = true := by
      intro ts e h
      simp only [parse_expr2] at h
      cases h1 : parse_expr1 f ts with
      | error e2 =>
        simp only [h1] at h
        simp at h
        subst h
        exact ihE1 ts e2 h1
      | ok val =>
        obtain ⟨left, rest⟩ := val
        simp only [h1] at h
        exact ihG2 _ _ _ h
    have hG3 : ∀ left ts e, parse_expr3_go (f + 1) left ts = .error e →
        err_allowed e = true := by
      intro left ts e h
      match ts with
      | [] => simp [parse_expr3_go] at h
      | t :: ts1 =>
        simp only [parse_expr3_go] at h
        cases hop : parse_expr3_op (t :: ts1) with
        | error e2 => simp only [hop] at h; simp at h
        | ok val =>
          obtain ⟨op, ts2⟩ := val
          simp only [hop] at h
          cases h1 : parse_expr2 f ts2 with
          | error e2 =>
            simp only [h1] at h
            simp at h
            subst h
            exact ihE2 ts2 e2 h1
          | ok val2 =>
            obtain ⟨right, ts3⟩ := val2
            simp only [h1] at h
            exact ihG3 _ _ _ h
    have hE3 : ∀ ts e, parse_expr3 (f + 1) ts = .error e →
        err_allowed e = true := by
      intro ts e h
      simp only [parse_expr3] at h
      cases h1 : parse_expr2 f ts with
      | error e2 =>
        simp only [h1] at h
        simp at h
        subst h
        exact ihE2 ts e2 h1
      | ok val =>
        obtain ⟨left, rest⟩ := val
        simp only [h1] at h
        exact ihG3 _ _ _ h
    have hE : ∀ ts e, parse_expr (f + 1) ts = .error e →
        err_allowed e = true := by
      intro ts e h
      exact ihE3 ts e (by simpa [parse_expr] using h)
    exact ⟨hAtom, hE1, hG2, hE2, hG3, hE3, hE⟩

/-- `wrap64` always lands in the `i64` range. -/
theorem wrap64_range (x : Int) : -(2 ^ 63) ≤ wrap64 x ∧ wrap64 x < 2 ^ 63 := by
  unfold wrap64
  have h1 : 0 ≤ Int.emod (x + 2 ^ 63) (2 ^ 64) := Int.emod_nonneg _ (by norm_num)
  have h2 : Int.emod (x + 2 ^ 63) (2 ^ 64) < 2 ^ 64 := Int.emod_lt_of_pos _ (by norm_num)
  have e1 : (2 : Int) ^ 63 = 9223372036854775808 := by norm_num
  have e2 : (2 : Int) ^ 64 = 18446744073709551616 := by norm_num
  simp only [e1, e2] at h1 h2 ⊢
  omega

/-- Every evaluation error originates at a `Div` subtree whose right operand
evaluates to zero, and carries that subtree's location with the
`DivisionByZero` kind. -/
theorem eval_err_subtree : ∀ a e, eval a = .error e →
    ∃ op l r loc, is_subtree (Ast.binary op l r loc) a = true ∧
      op.value = BinaryOperatorKind.div ∧ eval r = .ok 0 ∧
      e = ⟨InterpreterErrorKind.divisionByZero, loc⟩ := by
  intro a
  induction a with
  | num n loc => intro e h; simp [eval] at h
  | unary op operand loc ih =>
    intro e h
    simp only [eval] at h
    cases ho : eval operand with
    | error e2 =>
      simp only [ho] at h
      simp at h
      subst h
      obtain ⟨op2, l2, r2, loc2, hsub, hdiv, hr0, he⟩ := ih e2 ho
      exact ⟨op2, l2, r2, loc2, by simp [is_subtree, hsub], hdiv, hr0, he⟩
    | ok v => simp only [ho] at h; simp at h
  | binary op l r loc ihl ihr =>
    intro e h
    simp only [eval] at h
    cases hl : eval l with
    | error e2 =>
      simp only [hl] at h
      simp at h
      subst h
      obtain ⟨op2, l2, r2, loc2, hsub, hdiv, hr0, he⟩ := ihl e2 hl
      exact ⟨op2, l2, r2, loc2, by simp [is_subtree, hsub], hdiv, hr0, he⟩
    | ok lv =>
      simp only [hl] at h
      cases hr : eval r with
      | error e2 =>
        simp only [hr] at h
        simp at h
        subst h
        obtain ⟨op2, l2, r2, loc2, hsub, hdiv, hr0, he⟩ := ihr e2 hr
        exact ⟨op2, l2, r2, loc2, by simp [is_subtree, hsub], hdiv, hr0, he⟩
      | ok rv =>
        simp only [hr] at h
        cases hb : eval_binop op lv rv with
        | ok v => simp only [hb] at h; simp at h
        | error k =>
          simp only [hb] at h
          simp at h
          subst h
          cases hopv : op.value <;> simp [eval_binop, hopv] at hb
          by_cases hrv : rv = 0
          · refine ⟨op, l, r, loc, by simp [is_subtree], hopv, ?_, ?_⟩
            · rw [hr, hrv]
            · cases k
              rfl
          · simp [hrv] at hb

/-- A `Div` subtree whose right operand evaluates to zero makes
`has_div_by_zero` true for the whole tree. -/
theorem subtree_div_hdz : ∀ a op l r loc,
    is_subtree (Ast.binary op l r loc) a = true →
    op.value = BinaryOperatorKind.div → eval r = .ok 0 →
    has_div_by_zero a = true := by
  intro a
  induction a with
  | num n loc2 => intro op l r loc h hdiv hr0; simp [is_subtree] at h
  | unary op2 operand loc2 ih =>
    intro op l r loc h hdiv hr0
    simp [is_subtree] at h
    simp [has_div_by_zero]
    exact ih op l r loc h hdiv hr0
  | binary op2 l2 r2 loc2 ihl ihr =>
    intro op l r loc h hdiv hr0
    simp [is_subtree] at h
    rcases h with (⟨h1, h2, h3, h4⟩ | h) | h
    · subst h1; subst h2; subst h3
      simp [has_div_by_zero, hdiv, hr0]
    · simp [has_div_by_zero, ihl op l r loc h hdiv hr0]
    · simp [has_div_by_zero, ihr op l r loc h hdiv hr0]

/-- If some `Div` node's right operand evaluates to zero, evaluation of the
whole tree fails. -/
theorem hdz_eval_err : ∀ a, has_div_by_zero a = true → ∃ e, eval a = .error e := by
  intro a
  induction a with
  | num n loc => intro h; simp [has_div_by_zero] at h
  | unary op operand loc ih =>
    intro h
    simp only [has_div_by_zero] at h
    obtain ⟨e, he⟩ := ih h
    exact ⟨e, by simp [eval, he]⟩
  | binary op l r loc ihl ihr =>
    intro h
    simp only [has_div_by_zero] at h
    rcases Bool.or_eq_true_iff.mp h with h1 | h2
    · rcases Bool.or_eq_true_iff.mp h1 with hl | hr
      · obtain ⟨e, he⟩ := ihl hl
        exact ⟨e, by simp [eval, he]⟩
      · obtain ⟨e, he⟩ := ihr hr
        cases hle : eval l with
        | error e2 => exact ⟨e2, by simp [eval, hle]⟩
        | ok lv => exact ⟨e, by simp [eval, hle, he]⟩
    · rcases Bool.and_eq_true_iff.mp h2 with ⟨hdiv, hr0⟩
      rw [decide_eq_true_eq] at hdiv hr0
      cases hle : eval l with
      | error e2 => exact ⟨e2, by simp [eval, hle]⟩
      | ok lv =>
        refine ⟨⟨.divisionByZero, loc⟩, ?_⟩
        simp [eval, hle, hr0, eval_binop, hdiv]

/-- Every successful evaluation result lies in the signed 64-bit range. -/
theorem eval_ok_range : ∀ a v, eval a = .ok v → -(2 ^ 63) ≤ v ∧ v < 2 ^ 63 := by
  intro a
  induction a with
  | num n loc =>
    intro v h
    simp [eval] at h
    subst h
    exact wrap64_range _
  | unary op operand loc ih =>
    intro v h
    simp only [eval] at h
    cases ho : eval operand with
    | error e => simp [ho] at h
    | ok v2 =>
      simp [ho] at h
      subst h
      cases hopv : op.value with
      | plus => simpa [eval_uniop, hopv] using ih v2 ho
      | minus => simp [eval_uniop, hopv]; exact wrap64_range _
  | binary op l r loc ihl ihr =>
    intro v h
    simp only [eval] at h
    cases hl : eval l with
    | error e => simp [hl] at h
    | ok lv =>
      simp only [hl] at h
      cases hr : eval r with
      | error e => simp [hr] at h
      | ok rv =>
        simp only [hr] at h
        cases hb : eval_binop op lv rv with
        | error k => simp [hb] at h
        | ok v2 =>
          simp [hb] at h
          subst h
          cases hopv : op.value <;> simp [eval_binop, hopv] at hb
          case add => rw [← hb]; exact wrap64_range _
          case sub => rw [← hb]; exact wrap64_range _
          case multi => rw [← hb]; exact wrap64_range _
          case div =>
            by_cases hrv : rv = 0
            · simp [hrv] at hb
            · simp [hrv] at hb
              rw [← hb]
              exact wrap64_range _

/-- C1 counterexample: compiling the AST of `"1 + 2 * 3 - -10"` to RPN
yields `"1 2 3 * + -10 -"` (with the trailing subtraction operator), not
the claimed `"1 2 3 * + -10"`. -/
theorem claim_C1_counterexample :
    compile ast_ex1 = "1 2 3 * + -10 -" ∧ compile ast_ex1 ≠ "1 2 3 * + -10" := by
  constructor
  · rfl
  · decide

/-- C1 (amended): compiling the AST of `"1 + 2 * 3 - -10"`
(`Binary(Sub, Binary(Add, 1, Binary(Mul, 2, 3)), Unary(Minus, 10))`) to
reverse Polish notation yields exactly the string `"1 2 3 * + -10 -"`. -/
theorem claim_C1 : compile ast_ex1 = "1 2 3 * + -10 -" := by rfl

/-- C4: lexing `"1 + 2 * 3 - -10"` returns exactly the claimed token
sequence, and parsing that sequence returns
`Binary(Sub, Binary(Add, 1, Binary(Mul, 2, 3)), Unary(Minus, 10))` with the
top-level `Sub` spanning 0-15. -/
theorem claim_C4 :
    lex "1 + 2 * 3 - -10" = .ok tokens_ex1 ∧
    parse tokens_ex1 = .ok ast_ex1 ∧ ast_ex1.location = ⟨0, 15⟩ := by
  refine ⟨by decide, by decide, rfl⟩

/-- C8: equal-precedence binary operators group left-to-right: the tokens of
`"1 - 2 - 3"` parse to `Binary(Sub, Binary(Sub, 1, 2), 3)` (the inner `Sub`
applied to 1 and 2; the right child is the bare numeral 3, so the result is
not the right-grouped `Binary(Sub, 1, Binary(Sub, 2, 3))`). -/
theorem claim_C8 : parse tokens_sub3 = .ok ast_sub3 := by decide

/-- C9: `Expr1` admits only a single leading sign: the tokens of `"--5"`
are rejected (with `NotExpression` at the second `-`), while the two
consecutive sign tokens of `"1 - -10"` parse as a binary `Sub` whose right
operand is `Unary(Minus, 10)`. -/
theorem claim_C9 :
    lex "--5" = .ok tokens_mm5 ∧
    parse tokens_mm5 = .error (.notExpression ⟨.minus, ⟨1, 2⟩⟩) ∧
    lex "1 - -10" = .ok tokens_1mm10 ∧
    parse tokens_1mm10 = .ok ast_1mm10 := by
  refine ⟨by decide, by decide, by decide, by decide⟩

/-- C2: every AST returned by `parse` satisfies the span invariant: a binary
node's location is the merge of its children's locations and a unary node's
location is the merge of the operator's and the operand's locations. -/
theorem claim_C2 (ts : List Token) (a : Ast) (h : parse ts = .ok a) :
    span_invariant a = true := by
  obtain ⟨-, -, -, -, -, -, hE⟩ := parse_fuel_inv (parseFuel ts)
  unfold parse at h
  cases he : parse_expr (parseFuel ts) ts with
  | error e => rw [he] at h; simp at h
  | ok val =>
    obtain ⟨ret, rest⟩ := val
    rw [he] at h
    cases rest with
    | cons t r => simp at h
    | nil =>
      simp at h
      subst h
      exact hE ts ret [] he

/-- C2 witness: the invariant instantiated on the parse of
`"1 + 2 * 3 - -10"`. -/
theorem claim_C2_witness : span_invariant ast_ex1 = true :=
  claim_C2 tokens_ex1 ast_ex1 (by decide)

/-- C3 counterexample: the tokens of `"(1)"` parse to a `Num` node whose
span is `1-2`, the inner numeral only — not `0-3`, the whole bracketed text
including the parentheses. -/
theorem claim_C3_counterexample :
    parse tokens_paren1 = .ok (Ast.num 1 ⟨1, 2⟩) ∧
    (Ast.num 1 ⟨1, 2⟩).location ≠ (⟨0, 3⟩ : Location) := by
  constructor
  · decide
  · decide

/-- C3 (amended): every node of a parsed AST satisfies the span invariant
(composite spans are merges of child spans), but a parenthesized atom
`"(" e ")"` is returned as the inner expression's node unchanged, so its
span covers only `e` and excludes the parentheses. -/
theorem claim_C3 :
    (∀ ts a, parse ts = .ok a → span_invariant a = true) ∧
    (∀ f rest e t r3 loc, parse_expr f rest = .ok (e, t :: r3) →
      t.value = TokenKind.rparen →
      parse_atom (f + 1) (⟨TokenKind.lparen, loc⟩ :: rest) = .ok (e, r3)) := by
  constructor
  · intro ts a h
    obtain ⟨-, -, -, -, -, -, hE⟩ := parse_fuel_inv (parseFuel ts)
    unfold parse at h
    cases he : parse_expr (parseFuel ts) ts with
    | error e => rw [he] at h; simp at h
    | ok val =>
      obtain ⟨ret, rest⟩ := val
      rw [he] at h
      cases rest with
      | cons t r => simp at h
      | nil =>
        simp at h
        subst h
        exact hE ts ret [] he
  · intro f rest e t r3 loc h ht
    simp [parse_atom, h, ht]

/-- C3 witness: the amended paren rule instantiated on the tokens of
`"(1)"`: the atom parse returns the inner `Num` with span `1-2`. -/
theorem claim_C3_witness :
    parse_atom 11 (⟨TokenKind.lparen, ⟨0, 1⟩⟩ :: [⟨.number 1, ⟨1, 2⟩⟩, ⟨.rparen, ⟨2, 3⟩⟩])
      = .ok (Ast.num 1 ⟨1, 2⟩, []) :=
  claim_C3.2 10 [⟨.number 1, ⟨1, 2⟩⟩, ⟨.rparen, ⟨2, 3⟩⟩] (Ast.num 1 ⟨1, 2⟩)
    ⟨.rparen, ⟨2, 3⟩⟩ [] ⟨0, 1⟩ (by decide) (by decide)

/-- C5: whenever `parse_expr` succeeds on a proper prefix leaving at least
one token, `parse` returns `RedundantExpression` carrying the first
remaining token, and the diagnostic for that error underlines from that
token's start offset to the end of the input. -/
theorem claim_C5 (ts : List Token) (ast : Ast) (t : Token) (rest : List Token)
    (inputLen : Nat)
    (h : parse_expr (parseFuel ts) ts = .ok (ast, t :: rest)) :
    parse ts = .error (.redundantExpression t) ∧
    diagnostic_location (.parser (.redundantExpression t)) inputLen
      = ⟨t.location.lo, inputLen⟩ := by
  constructor
  · unfold parse
    rw [h]
  · rfl

/-- C5 witness: the tokens of `"1 2"` (input length 3): the second token is
redundant and the diagnostic covers offsets 2 to 3. -/
theorem claim_C5_witness :
    parse tokens_redundant = .error (.redundantExpression ⟨.number 2, ⟨2, 3⟩⟩) ∧
    diagnostic_location (.parser (.redundantExpression ⟨.number 2, ⟨2, 3⟩⟩)) 3
      = ⟨(⟨.number 2, ⟨2, 3⟩⟩ : Token).location.lo, 3⟩ :=
  claim_C5 tokens_redundant (Ast.num 1 ⟨0, 1⟩) ⟨.number 2, ⟨2, 3⟩⟩ [] 3 (by decide)

/-- C6 counterexample: for the tokens of `"(1 +"` the `(` is consumed and
the sequence ends before any `)`, yet `parse` returns `Eof` (the inner
expression parse fails first), not `UnclosedOpenParen`. -/
theorem claim_C6_counterexample :
    parse tokens_open_bad = .error .eof ∧
    parse tokens_open_bad ≠ .error (.unclosedOpenParen ⟨.lparen, ⟨0, 1⟩⟩) := by
  constructor
  · decide
  · decide

/-- C6 (amended): whenever a `(` token is consumed, the inner expression
parses successfully, and the token sequence ends before a matching `)` is
found, the atom parse fails with `UnclosedOpenParen` carrying the opening
`(` token; in particular the tokens of `"(1 + 2"` fail to parse with
`UnclosedOpenParen` whose token has span 0-1. -/
theorem claim_C6 :
    (∀ f rest e loc, parse_expr f rest = .ok (e, []) →
      parse_atom (f + 1) (⟨TokenKind.lparen, loc⟩ :: rest)
        = .error (.unclosedOpenParen ⟨TokenKind.lparen, loc⟩)) ∧
    parse tokens_open = .error (.unclosedOpenParen ⟨.lparen, ⟨0, 1⟩⟩) := by
  constructor
  · intro f rest e loc h
    simp [parse_atom, h]
  · decide

/-- C6 witness: the unclosed-paren rule instantiated on `( 1`: the inner
parse of `[1]` consumes everything, so the atom parse reports the `(`. -/
theorem claim_C6_witness :
    parse_atom 11 (⟨TokenKind.lparen, ⟨0, 1⟩⟩ :: [⟨.number 1, ⟨1, 2⟩⟩])
      = .error (.unclosedOpenParen ⟨TokenKind.lparen, ⟨0, 1⟩⟩) :=
  claim_C6.1 10 [⟨.number 1, ⟨1, 2⟩⟩] (Ast.num 1 ⟨1, 2⟩) ⟨0, 1⟩ (by decide)

/-- C7: the evaluator returns an `i64`-range integer or fails with exactly
`DivisionByZero`; it fails precisely when some `Div` node's right operand
evaluates to zero, the error carrying that node's span; and evaluating the
parse of `"1 / 0"` fails with `DivisionByZero` at span 0-5. -/
theorem claim_C7 :
    (∀ a e, eval a = .error e →
      ∃ op l r loc, is_subtree (Ast.binary op l r loc) a = true ∧
        op.value = BinaryOperatorKind.div ∧ eval r = .ok 0 ∧
        e = ⟨InterpreterErrorKind.divisionByZero, loc⟩) ∧
    (∀ a, (∃ e, eval a = .error e) ↔ has_div_by_zero a = true) ∧
    (∀ a v, eval a = .ok v → -(2 ^ 63) ≤ v ∧ v < 2 ^ 63) ∧
    (lex "1 / 0" = .ok tokens_div0 ∧ parse tokens_div0 = .ok ast_div0 ∧
      eval ast_div0 = .error ⟨InterpreterErrorKind.divisionByZero, ⟨0, 5⟩⟩) := by
  refine ⟨eval_err_subtree, ?_, eval_ok_range, by decide, by decide, by decide⟩
  intro a
  constructor
  · rintro ⟨e, he⟩
    obtain ⟨op, l, r, loc, hsub, hdiv, hr0, -⟩ := eval_err_subtree a e he
    exact subtree_div_hdz a op l r loc hsub hdiv hr0
  · intro h
    exact hdz_eval_err a h

/-- C7 witness: the range component instantiated at the literal `1`. -/
theorem claim_C7_witness : -(2 ^ 63) ≤ (1 : Int) ∧ (1 : Int) < 2 ^ 63 :=
  claim_C7.2.2.1 (Ast.num 1 ⟨0, 1⟩) 1 (by decide)

/-- C10: `parse` never returns `NotOperator` or `UnexpectedToken`: every
parse failure is `NotExpression`, `UnclosedOpenParen`,
`RedundantExpression` or `Eof`. -/
theorem claim_C10 (ts : List Token) (e : ParseError) (h : parse ts = .error e) :
    (∃ t, e = .notExpression t) ∨ (∃ t, e = .unclosedOpenParen t) ∨
    (∃ t, e = .redundantExpression t) ∨ e = .eof := by
  obtain ⟨-, -, -, -, -, -, hE⟩ := parse_fuel_err (parseFuel ts)
  unfold parse at h
  cases he : parse_expr (parseFuel ts) ts with
  | error e2 =>
    rw [he] at h
    simp at h
    subst h
    have := hE ts e2 he
    cases e2 with
    | unexpectedToken t => simp [err_allowed] at this
    | notOperator t => simp [err_allowed] at this
    | notExpression t => exact Or.inl ⟨t, rfl⟩
    | unclosedOpenParen t => exact Or.inr (Or.inl ⟨t, rfl⟩)
    | redundantExpression t => exact Or.inr (Or.inr (Or.inl ⟨t, rfl⟩))
    | eof => exact Or.inr (Or.inr (Or.inr rfl))
  | ok val =>
    obtain ⟨ret, rest⟩ := val
    rw [he] at h
    cases rest with
    | nil => simp at h
    | cons t r =>
      simp at h
      subst h
      exact Or.inr (Or.inr (Or.inl ⟨t, rfl⟩))

/-- C10 witness: instantiated on the failing tokens of `"--5"`, whose error
is `NotExpression`. -/
theorem claim_C10_witness :
    (∃ t, ParseError.notExpression (⟨.minus, ⟨1, 2⟩⟩ : Token) = .notExpression t) ∨
    (∃ t, ParseError.notExpression (⟨.minus, ⟨1, 2⟩⟩ : Token) = .unclosedOpenParen t) ∨
    (∃ t, ParseError.notExpression (⟨.minus, ⟨1, 2⟩⟩ : Token) = .redundantExpression t) ∨
    ParseError.notExpression (⟨.minus, ⟨1, 2⟩⟩ : Token) = .eof :=
  claim_C10 tokens_mm5 (.notExpression ⟨.minus, ⟨1, 2⟩⟩) (by decide)

end Arith
